import Mathlib

/-!
Verification of the goweight size-attribution engine.

The definitions below are a shallow embedding of the Go sources:

* `pkg/symbol_analyzer.go` — symbol-table analysis (`extractPackageFromSymbol`,
  `analyzeBinarySymbolTable`, `estimateMachOSymbolSize`, `sumMapValues`);
* the binary-analysis file (`ProcessBinary`, `estimateModuleSize`,
  `calculateDirSize`);
* `main.go` (`aggregateByTopLevelPackage`, `getTopLevelPackage`).

Machine `uint64` arithmetic is modelled as `Nat` with explicit reduction
modulo `2 ^ 64` at every point where Go wraps.  Strings are modelled through
their character lists (the symbol names involved are ASCII, so Go's byte
indices coincide with character indices).  Filesystem and OS interaction is
modelled by passing the data the OS would return (file sizes, walk events,
module-cache lookups) as explicit arguments.
-/

namespace GoWeight

/-- Modulus of Go's `uint64` arithmetic. -/
def u64 : Nat := 2 ^ 64

/-- Sum of a list of `uint64` values as Go computes it: repeated wrapping
addition, which equals the plain sum reduced modulo `2 ^ 64`. -/
def sum64 (l : List Nat) : Nat := l.sum % u64

/-! ### Package Name Resolver (`extractPackageFromSymbol`, symbol_analyzer.go:211-243) -/

/-- Test applied to each dot-prefix inside the loop of
`extractPackageFromSymbol`: `strings.Contains(packageName, "/") ||
packageName == "main" || packageName == "runtime"`. -/
def looksLikePackagePath (s : List Char) : Bool :=
  s.contains '/' || s == "main".toList || s == "runtime".toList

/-- Loop `for i := len(parts) - 1; i >= 0; i--` of `extractPackageFromSymbol`:
at index `i` it joins `parts[:i]` with `"."` and returns the first join that
passes `looksLikePackagePath`; `none` when the loop falls through. -/
def walkDotPrefixes (parts : List (List Char)) : Nat → Option (List Char)
  | 0 =>
    let packageName := List.intercalate ['.'] (parts.take 0)
    if looksLikePackagePath packageName then some packageName else none
  | i + 1 =>
    let packageName := List.intercalate ['.'] (parts.take (i + 1))
    if looksLikePackagePath packageName then some packageName
    else walkDotPrefixes parts i

/-- Embedding of `extractPackageFromSymbol` (symbol_analyzer.go:211-243).
Finds the first `'.'`; a positive index yields the leading segment, which is
returned verbatim when it is one of the reserved identifiers
`runtime`/`main`/`go`; otherwise, when the segment contains `'/'` or `'.'`,
the dot-decomposition of the full name is walked from longest to shortest
proper prefix; every other case returns the empty string. -/
def extractPackageFromSymbol (symbolName : String) : String :=
  let cs := symbolName.toList
  match cs.findIdx? (fun c => c == '.') with
  | none => ""
  | some idx =>
    if 0 < idx then
      let seg := cs.take idx
      if seg == "runtime".toList || seg == "main".toList || seg == "go".toList then
        String.mk seg
      else if seg.contains '/' || seg.contains '.' then
        let parts := cs.splitOn '.'
        if 1 < parts.length then
          match walkDotPrefixes parts (parts.length - 1) with
          | some p => String.mk p
          | none => ""
        else ""
      else ""
    else ""

/-! ### Data model (symbol_analyzer.go:13-27, analyzer.go:19-25) -/

/-- Embedding of `Section` (symbol_analyzer.go:14-18); the `Type` field is
rendered as `typeStr` because `Type` is reserved in Lean. -/
structure Section where
  name : String
  size : Nat
  typeStr : String
deriving DecidableEq, Repr

/-- Embedding of `Symbol` (symbol_analyzer.go:21-27); the `Section` field is
rendered as `sectionName`. -/
structure Symbol where
  name : String
  size : Nat
  address : Nat
  package : String
  sectionName : String
deriving DecidableEq, Repr

/-- Stand-in for the external `go-humanize` library's `humanize.Bytes`.
It is purely presentational (the spec makes `size_human` derived data and no
claim depends on its exact text), so it is modelled as a plain decimal
rendering. -/
def humanizeBytes (n : Nat) : String := toString n ++ " B"

/-- Embedding of `ModuleEntry` (analyzer.go:19-25). -/
structure ModuleEntry where
  path : String
  name : String
  version : String
  size : Nat
  sizeHuman : String
deriving DecidableEq, Repr

/-- A module record of the embedded build info (`debug/buildinfo`): a path
and a version. -/
structure BuildModule where
  path : String
  version : String
deriving DecidableEq, Repr

/-- The build provenance read from the binary: the main module and the
dependency modules. -/
structure BuildInfo where
  main : BuildModule
  deps : List BuildModule
deriving DecidableEq, Repr

/-! ### Format Detector & Symbol Reader (symbol_analyzer.go:30-157)

The `debug/elf` / `debug/macho` / `debug/pe` parsing itself is delegated by
the source to the Go standard library; its outcome is modelled as a
`ParsedBinary` value carrying the raw records the library would return.
A symbol table whose read fails is indistinguishable, for the rest of the
function, from an empty one, so failed reads are modelled by empty lists. -/

/-- A raw ELF symbol as returned by `elf.File.Symbols` /
`elf.File.DynamicSymbols`: name, size, value, and section index (an `Int`,
since the Go code guards `sym.Section >= 0`). -/
structure ElfSym where
  name : String
  size : Nat
  value : Nat
  sectionIdx : Int
deriving DecidableEq, Repr

/-- A raw Mach-O symbol as returned by `macho.File.Symtab`; only the name is
consumed by the source. -/
structure MachoSym where
  name : String
deriving DecidableEq, Repr

/-- Outcome of the format-detection trial sequence of
`analyzeBinarySymbolTable`: the first of ELF, Mach-O, PE whose header
parses, with the raw records the standard library exposes for it. -/
inductive ParsedBinary where
  | elf (staticSyms dynSyms : List ElfSym) (sections : List Section)
  | macho (syms : List MachoSym) (sections : List Section)
  | pe (sections : List Section)
deriving DecidableEq, Repr

/-- The `archType` string assigned by `analyzeBinarySymbolTable` for each
recognized format. -/
def archTypeOf : ParsedBinary → String
  | .elf _ _ _ => "ELF"
  | .macho _ _ => "MachO"
  | .pe _ => "PE"

/-- Embedding of `estimateMachOSymbolSize` (symbol_analyzer.go:195-199): the
source ignores both arguments and returns the fixed default estimate `100`
(its comment defers a real algorithm). -/
def estimateMachOSymbolSize (_sym : MachoSym) : Nat := 100

/-- The ELF symbol loop of `analyzeBinarySymbolTable` (lines 49-63 for the
static table, 79-94 for the dynamic table): keep a symbol when its section
index is in range for the section list and its name resolves to a non-empty
package; record the name of the indexed section. -/
def collectElfSyms (syms : List ElfSym) (sections : List Section) : List Symbol :=
  syms.filterMap fun sym =>
    if 0 ≤ sym.sectionIdx ∧ sym.sectionIdx < (sections.length : Int) then
      let sectionName := ((sections.get? sym.sectionIdx.toNat).map Section.name).getD ""
      let pkg := extractPackageFromSymbol sym.name
      if pkg ≠ "" then
        some { name := sym.name, size := sym.size, address := sym.value,
               package := pkg, sectionName := sectionName }
      else none
    else none

/-- The Mach-O symbol loop of `analyzeBinarySymbolTable` (lines 105-121):
keep a symbol when its name resolves, with the estimated size from
`estimateMachOSymbolSize`, address `0` and no section name. -/
def collectMachoSyms (syms : List MachoSym) : List Symbol :=
  syms.filterMap fun sym =>
    let pkg := extractPackageFromSymbol sym.name
    if pkg ≠ "" then
      some { name := sym.name, size := estimateMachOSymbolSize sym, address := 0,
             package := pkg, sectionName := "" }
    else none

/-- The symbol records `analyzeBinarySymbolTable` has accumulated after the
format branch: for ELF the static table, falling back to the dynamic table
when the static pass produced nothing (line 77); for Mach-O the symtab; for
PE nothing — the PE branch (lines 136-151) only collects section records. -/
def collectSymbols : ParsedBinary → List Symbol
  | .elf staticSyms dynSyms sections =>
    let symbols := collectElfSyms staticSyms sections
    if symbols.isEmpty then collectElfSyms dynSyms sections else symbols
  | .macho syms _ => collectMachoSyms syms
  | .pe _ => []

/-- One step of the aggregation loop `pkgSizes[sym.Package] += sym.Size`
over a Go map, modelled as an association list in key-insertion order with
wrapping `uint64` addition. -/
def bumpPkg (m : List (String × Nat)) (key : String) (sz : Nat) : List (String × Nat) :=
  match m with
  | [] => [(key, sz % u64)]
  | (k, v) :: rest =>
    if k = key then (k, (v + sz) % u64) :: rest else (k, v) :: bumpPkg rest key sz

/-- Embedding of `sumMapValues` (symbol_analyzer.go:202-208). -/
def sumMapValues (m : List (String × Nat)) : Nat := sum64 (m.map Prod.snd)

/-- The per-package symbol count map `pkgSymbolCounts` (symbol_analyzer.go:
169-172), read off for one package. -/
def pkgSymbolCount (symbols : List Symbol) (pkg : String) : Nat :=
  (symbols.filter fun s => s.package == pkg).length

/-- Embedding of `analyzeBinarySymbolTable` (symbol_analyzer.go:30-191)
after format detection.  `fileSize` is the result of the `os.Stat` call of
line 177 (`none` when the stat fails).  With zero collected symbols the
function fails with `no symbols found` (line 156).  Otherwise symbol sizes
are aggregated per package; if their wrapped sum is zero, each package is
reassigned `count * avgSymbolSize` where `avgSymbolSize` is
`uint64(float64(fileSize) * 0.7 / float64(totalSymbols))` — at the operand
magnitudes of the claims this `float64` computation is exact, and the
truncating `uint64` conversion is modelled as floor division
`7 * fileSize / (10 * totalSymbols)`. -/
def analyzeBinarySymbolTable (pb : ParsedBinary) (fileSize : Option Nat) :
    Except String (List (String × Nat)) :=
  let symbols := collectSymbols pb
  if symbols.isEmpty then
    .error ("no symbols found in " ++ archTypeOf pb ++ " binary")
  else
    let pkgSizes := symbols.foldl (fun m s => bumpPkg m s.package s.size) []
    let totalSymbols := symbols.length
    if sumMapValues pkgSizes = 0 then
      match fileSize with
      | some totalBinarySize =>
        let avgSymbolSize := totalBinarySize * 7 / (totalSymbols * 10)
        .ok (pkgSizes.map fun kv => (kv.1, pkgSymbolCount symbols kv.1 * avgSymbolSize % u64))
      | none => .ok pkgSizes
    else .ok pkgSizes

/-! ### Size Reconciler fallbacks (`estimateModuleSize`, `calculateDirSize`) -/

/-- One event of a `filepath.Walk` traversal, in visit order: either an
entry whose callback received a non-nil error (inaccessible), or an
accessible entry that is a directory, or an accessible non-directory entry
with its `info.Size()`. -/
inductive WalkEntry where
  | err
  | dir
  | file (size : Nat)
deriving DecidableEq, Repr

/-- Embedding of `calculateDirSize`: the walk callback logs and skips
inaccessible entries (`return nil`), ignores directories, and adds
`uint64(info.Size())` of every other entry into the running total; the
function itself has no error result.  A missing root produces the single
event `.err`; an empty directory produces just the root event `.dir`. -/
def calculateDirSize (walk : List WalkEntry) : Nat :=
  walk.foldl
    (fun size e =>
      match e with
      | .err => size
      | .dir => size
      | .file sz => (size + sz) % u64)
    0

/-- The module-cache view `estimateModuleSize` consults: for a module path
and version, the walk events of the cache directory
`$GOPATH/pkg/mod/<path>@<version>` when `os.Stat` finds it and it is a
directory, and `none` otherwise. -/
def ModCache : Type := String → String → Option (List WalkEntry)

/-- Embedding of `estimateModuleSize`: version `""` or `"(devel)"` returns
`0` immediately; otherwise the module-cache directory is stat-ed and, when
present as a directory, summed with `calculateDirSize`, else `0`. -/
def estimateModuleSize (cache : ModCache) (modulePath version : String) : Nat :=
  if version = "" ∨ version = "(devel)" then 0
  else
    match cache modulePath version with
    | some walk => calculateDirSize walk
    | none => 0

/-! ### Report assembly (`ProcessBinary`) and its sort -/

/-- The comparator of the `sort.Slice` calls (`ProcessBinary`,
`aggregateByTopLevelPackage`): entry `a` precedes entry `b` when
`a.Size > b.Size` fails to put `b` first, i.e. the sort orders by
non-increasing size.  Stated in its reflexive form so that it can serve as
the sortedness relation. -/
def sizeGe (a b : ModuleEntry) : Prop := b.size ≤ a.size

instance : DecidableRel sizeGe := fun a b => Nat.decLe b.size a.size

instance : IsTotal ModuleEntry sizeGe :=
  ⟨fun a b => Nat.le_total b.size a.size⟩

instance : IsTrans ModuleEntry sizeGe :=
  ⟨fun _ _ _ hab hbc => Nat.le_trans hbc hab⟩

/-- Model of `sort.Slice(modules, func(i, j int) bool { return
modules[i].Size > modules[j].Size })`: a sort by non-increasing size.  Go's
`sort.Slice` is unstable in general but deterministic, and coincides with a
stable insertion sort on short slices; it never consults entry names. -/
def sortModulesBySize (modules : List ModuleEntry) : List ModuleEntry :=
  List.insertionSort sizeGe modules

/-- The per-module size choice of `ProcessBinary` (lines 66-72 for the main
module, 89-95 for dependencies): the symbol-table figure when present and
positive, otherwise the module-cache estimate. -/
def moduleEntrySize (pkgSizes : List (String × Nat)) (cache : ModCache)
    (m : BuildModule) : Nat :=
  match pkgSizes.lookup m.path with
  | some s => if 0 < s then s else estimateModuleSize cache m.path m.version
  | none => estimateModuleSize cache m.path m.version

/-- The `ModuleEntry` literal `ProcessBinary` constructs for one build-info
module. -/
def mkModuleEntry (pkgSizes : List (String × Nat)) (cache : ModCache)
    (m : BuildModule) : ModuleEntry :=
  { path := m.path, name := m.path, version := m.version,
    size := moduleEntrySize pkgSizes cache m,
    sizeHuman := humanizeBytes (moduleEntrySize pkgSizes cache m) }

/-- The unsorted entry list `ProcessBinary` accumulates: the main module
when its path is non-empty (lines 65-84), then one entry per non-nil
dependency (lines 87-106). -/
def binaryEntries (pkgSizes : List (String × Nat)) (cache : ModCache)
    (info : BuildInfo) : List ModuleEntry :=
  (if info.main.path ≠ "" then [mkModuleEntry pkgSizes cache info.main] else [])
    ++ info.deps.map (mkModuleEntry pkgSizes cache)

/-- Embedding of `ProcessBinary` downstream of `buildinfo.ReadFile`, given
the already-computed symbol-table result: an analysis error is logged as a
warning only, leaving `pkgSizes` the nil map; the entries are then sorted
by descending size. -/
def ProcessBinary (analysis : Except String (List (String × Nat)))
    (cache : ModCache) (info : BuildInfo) : List ModuleEntry :=
  let pkgSizes :=
    match analysis with
    | .ok m => m
    | .error _ => []
  sortModulesBySize (binaryEntries pkgSizes cache info)

/-! ### Top-level rollup (main.go: `aggregateByTopLevelPackage`,
`getTopLevelPackage`) -/

/-- Embedding of `getTopLevelPackage` (main.go:116-152). -/
def getTopLevelPackage (fullPackageName : String) : String :=
  if "runtime".isPrefixOf fullPackageName then "runtime"
  else if "internal/".isPrefixOf fullPackageName then "internal/*"
  else if "vendor/".isPrefixOf fullPackageName then "vendor/*"
  else if fullPackageName.contains '.' || fullPackageName.contains '/' then
    match fullPackageName.toList.splitOn '/' with
    | [] => fullPackageName
    | p0 :: rest =>
      if p0.contains '.' then
        match rest with
        | p1 :: _ => String.mk (p0 ++ '/' :: p1)
        | [] => String.mk p0
      else
        match rest with
        | p1 :: _ => String.mk (p0 ++ '/' :: p1)
        | [] => String.mk p0
  else fullPackageName

/-- One iteration of the aggregation loop of `aggregateByTopLevelPackage`
(main.go:84-100) over the map `aggregated`, modelled in key-insertion
order: an existing entry for the coarse key gets `existing.Size +=
module.Size` (wrapping) and a refreshed human rendering; a missing key gets
a fresh entry carrying the module's size. -/
def aggregateStep (acc : List ModuleEntry) (key : String) (sz : Nat) : List ModuleEntry :=
  match acc with
  | [] => [{ path := key, name := key, version := "", size := sz,
             sizeHuman := humanizeBytes sz }]
  | e :: rest =>
    if e.name = key then
      { e with size := (e.size + sz) % u64,
               sizeHuman := humanizeBytes ((e.size + sz) % u64) } :: rest
    else e :: aggregateStep rest key sz

/-- Embedding of `aggregateByTopLevelPackage` (main.go:80-113): fold every
module into the coarse-key map, then sort the values by descending size. -/
def aggregateByTopLevelPackage (modules : List ModuleEntry) : List ModuleEntry :=
  sortModulesBySize
    (modules.foldl (fun acc m => aggregateStep acc (getTopLevelPackage m.name) m.size) [])

/-! ### Auxiliary definitions for the statements -/

/-- The module paths `ProcessBinary` turns into report entries, in
construction order: the main path when non-empty, then the dependency
paths. -/
def provenancePaths (info : BuildInfo) : List String :=
  (if info.main.path ≠ "" then [info.main.path] else [])
    ++ info.deps.map BuildModule.path

/-- Sizes of the accessible non-directory entries of a walk — the bytes
`calculateDirSize` is specified to count. -/
def dirWalkFileSizes (walk : List WalkEntry) : List Nat :=
  walk.filterMap fun e =>
    match e with
    | .file sz => some sz
    | _ => none

/-- An ELF symbol record with size and address `0` in section `0`, used to
exercise the proportional-estimate fallback. -/
def zeroElfSym (n : String) : ElfSym :=
  { name := n, size := 0, value := 0, sectionIdx := 0 }

/-! ### Helper lemmas -/

theorem sorted_sortModulesBySize (l : List ModuleEntry) :
    List.Sorted sizeGe (sortModulesBySize l) :=
  List.sorted_insertionSort sizeGe l

theorem perm_sortModulesBySize (l : List ModuleEntry) :
    (sortModulesBySize l).Perm l :=
  List.perm_insertionSort sizeGe l

theorem binaryEntries_names (pkgSizes : List (String × Nat)) (cache : ModCache)
    (info : BuildInfo) :
    (binaryEntries pkgSizes cache info).map ModuleEntry.name = provenancePaths info := by
  unfold binaryEntries provenancePaths
  by_cases h : info.main.path ≠ "" <;>
    simp [h, mkModuleEntry, Function.comp]

theorem aggregateStep_size_sum (acc : List ModuleEntry) (key : String) (sz : Nat) :
    ((aggregateStep acc key sz).map ModuleEntry.size).sum % u64
      = ((acc.map ModuleEntry.size).sum + sz) % u64 := by
  induction acc with
  | nil => simp [aggregateStep]
  | cons e rest ih =>
    by_cases h : e.name = key
    · simp only [aggregateStep, if_pos h, List.map_cons, List.sum_cons]
      rw [Nat.mod_add_mod]
      ring_nf
    · simp only [aggregateStep, if_neg h, List.map_cons, List.sum_cons]
      calc (e.size + ((aggregateStep rest key sz).map ModuleEntry.size).sum) % u64
          = (e.size + ((aggregateStep rest key sz).map ModuleEntry.size).sum % u64) % u64 := by
            rw [Nat.add_mod_mod]
        _ = (e.size + ((rest.map ModuleEntry.size).sum + sz) % u64) % u64 := by rw [ih]
        _ = (e.size + ((rest.map ModuleEntry.size).sum + sz)) % u64 := by
            rw [Nat.add_mod_mod]
        _ = (e.size + (rest.map ModuleEntry.size).sum + sz) % u64 := by ring_nf

theorem aggregateFold_size_sum (modules acc : List ModuleEntry) :
    (((modules.foldl
          (fun a m => aggregateStep a (getTopLevelPackage m.name) m.size) acc).map
        ModuleEntry.size).sum) % u64
      = ((acc.map ModuleEntry.size).sum + (modules.map ModuleEntry.size).sum) % u64 := by
  induction modules generalizing acc with
  | nil => simp
  | cons m rest ih =>
    simp only [List.foldl_cons, List.map_cons, List.sum_cons]
    calc (((rest.foldl (fun a m => aggregateStep a (getTopLevelPackage m.name) m.size)
              (aggregateStep acc (getTopLevelPackage m.name) m.size)).map
            ModuleEntry.size).sum) % u64
        = (((aggregateStep acc (getTopLevelPackage m.name) m.size).map
              ModuleEntry.size).sum + (rest.map ModuleEntry.size).sum) % u64 := ih _
      _ = (((aggregateStep acc (getTopLevelPackage m.name) m.size).map
              ModuleEntry.size).sum % u64 + (rest.map ModuleEntry.size).sum) % u64 := by
          rw [Nat.mod_add_mod]
      _ = (((acc.map ModuleEntry.size).sum + m.size) % u64
              + (rest.map ModuleEntry.size).sum) % u64 := by
          rw [aggregateStep_size_sum]
      _ = ((acc.map ModuleEntry.size).sum + m.size + (rest.map ModuleEntry.size).sum) % u64 := by
          rw [Nat.mod_add_mod]
      _ = ((acc.map ModuleEntry.size).sum + (m.size + (rest.map ModuleEntry.size).sum)) % u64 := by
          ring_nf

theorem calculateDirSize_fold_lt (walk : List WalkEntry) (acc : Nat) (h : acc < u64) :
    walk.foldl
        (fun size e =>
          match e with
          | .err => size
          | .dir => size
          | .file sz => (size + sz) % u64)
        acc < u64 := by
  induction walk generalizing acc with
  | nil => exact h
  | cons e rest ih =>
    cases e with
    | err => exact ih acc h
    | dir => exact ih acc h
    | file sz =>
      exact ih _ (Nat.mod_lt _ (by norm_num [u64]))

theorem calculateDirSize_fold_mod (walk : List WalkEntry) (acc : Nat) :
    (walk.foldl
        (fun size e =>
          match e with
          | .err => size
          | .dir => size
          | .file sz => (size + sz) % u64)
        acc) % u64
      = (acc + (dirWalkFileSizes walk).sum) % u64 := by
  induction walk generalizing acc with
  | nil => simp [dirWalkFileSizes]
  | cons e rest ih =>
    cases e with
    | err => simpa [dirWalkFileSizes, List.filterMap_cons] using ih acc
    | dir => simpa [dirWalkFileSizes, List.filterMap_cons] using ih acc
    | file sz =>
      simp only [List.foldl_cons, dirWalkFileSizes, List.filterMap_cons, List.sum_cons]
      calc (rest.foldl _ ((acc + sz) % u64)) % u64
          = ((acc + sz) % u64 + (dirWalkFileSizes rest).sum) % u64 := ih _
        _ = (acc + sz + (dirWalkFileSizes rest).sum) % u64 := by rw [Nat.mod_add_mod]
        _ = (acc + (sz + (dirWalkFileSizes rest).sum)) % u64 := by ring_nf

/-! ### Claims -/

/-- C1: Of the spec's three resolver examples, the code satisfies
`"runtime.newobject" ↦ "runtime"` and `"tmp42" ↦ ""`, but on
`"github.com/acme/foo.Bar"` it returns `""` instead of the documented
`"github.com/acme/foo"`: the first dot-segment `"github"` can contain
neither `'/'` nor `'.'` (it precedes the first dot by construction), so the
import-path branch is unreachable for such names, contradicting the
function's own doc comment which presents `github.com/user/repo/pkg.funcName`
as a supported shape. -/
theorem c1_resolvePackage_spec_examples :
    extractPackageFromSymbol "runtime.newobject" = "runtime" ∧
    extractPackageFromSymbol "tmp42" = "" ∧
    extractPackageFromSymbol "github.com/acme/foo.Bar" = "" ∧
    extractPackageFromSymbol "github.com/acme/foo.Bar" ≠ "github.com/acme/foo" := by
  refine ⟨by decide, by decide, by decide, by decide⟩

/-- C6: With symbol counts `{main: 2, runtime: 8}` over a 1000-byte file and
all symbol sizes zero, the proportional-estimate fallback of
`analyzeBinarySymbolTable` reports 140 bytes for `main` and 560 for
`runtime`, totalling 700 = 1000 * 0.7; the float computation
`uint64(1000 * 0.7 / 10) = 70` is exact at these operands. -/
theorem c6_proportional_estimate :
    analyzeBinarySymbolTable
        (.elf [zeroElfSym "main.a", zeroElfSym "main.b",
               zeroElfSym "runtime.a", zeroElfSym "runtime.b", zeroElfSym "runtime.c",
               zeroElfSym "runtime.d", zeroElfSym "runtime.e", zeroElfSym "runtime.f",
               zeroElfSym "runtime.g", zeroElfSym "runtime.h"] []
          [{ name := ".text", size := 0, typeStr := "PROGBITS" }])
        (some 1000)
      = .ok [("main", 140), ("runtime", 560)] ∧ 140 + 560 = 700 := ⟨rfl, rfl⟩

/-- C9: A module whose version is empty or the sentinel `"(devel)"` is
reported with size `0` by `estimateModuleSize` for every possible state of
the module cache — the cache lookup is never consulted. -/
theorem c9_devel_version_size_zero (cache : ModCache) (modulePath version : String)
    (h : version = "" ∨ version = "(devel)") :
    estimateModuleSize cache modulePath version = 0 := by
  unfold estimateModuleSize
  rw [if_pos h]

theorem c9_witness :
    ((("(devel)" : String) = "" ∨ ("(devel)" : String) = "(devel)") ∧
      estimateModuleSize (fun _ _ => some [.file 5]) "example.com/app" "(devel)" = 0) ∧
    ((("" : String) = "" ∨ ("" : String) = "(devel)") ∧
      estimateModuleSize (fun _ _ => some [.file 5]) "example.com/app" "" = 0) :=
  ⟨⟨Or.inr rfl, c9_devel_version_size_zero _ _ _ (Or.inr rfl)⟩,
   ⟨Or.inl rfl, c9_devel_version_size_zero _ _ _ (Or.inl rfl)⟩⟩

/-- C10: For every PE-format binary, `analyzeBinarySymbolTable` collects no
symbol records (the PE branch only gathers sections), so it always returns
the `no symbols found` error — PE symbol-based attribution never
succeeds. -/
theorem c10_pe_never_succeeds (sections : List Section) (fileSize : Option Nat) :
    collectSymbols (.pe sections) = [] ∧
    analyzeBinarySymbolTable (.pe sections) fileSize =
      .error "no symbols found in PE binary" := ⟨rfl, rfl⟩

/-- C8: `calculateDirSize` is total (it cannot fail): for every walk it
returns exactly the wrapped sum of the sizes of the accessible
non-directory entries, inaccessible entries being skipped; in particular an
empty directory (just the root directory event) gives `0`, and a missing
path (a single error event) gives `0`. -/
theorem c8_calculateDirSize_total (walk : List WalkEntry) :
    calculateDirSize walk = sum64 (dirWalkFileSizes walk) ∧
    calculateDirSize [.dir] = 0 ∧
    calculateDirSize [.err] = 0 := by
  refine ⟨?_, rfl, rfl⟩
  have hlt : calculateDirSize walk < u64 :=
    calculateDirSize_fold_lt walk 0 (by norm_num [u64])
  have hmod := calculateDirSize_fold_mod walk 0
  calc calculateDirSize walk = calculateDirSize walk % u64 :=
        (Nat.mod_eq_of_lt hlt).symm
    _ = (0 + (dirWalkFileSizes walk).sum) % u64 := hmod
    _ = sum64 (dirWalkFileSizes walk) := by rw [Nat.zero_add]; rfl

/-- C7: The top-level rollup preserves total size exactly (as the wrapped
`uint64` sum Go computes): member sizes are summed per coarse key, so the
sum over the rolled-up entries equals the sum over the input entries. -/
theorem c7_rollup_preserves_total (modules : List ModuleEntry) :
    sum64 ((aggregateByTopLevelPackage modules).map ModuleEntry.size)
      = sum64 (modules.map ModuleEntry.size) := by
  unfold aggregateByTopLevelPackage sum64
  rw [List.Perm.sum_eq (List.Perm.map ModuleEntry.size (perm_sortModulesBySize _))]
  rw [aggregateFold_size_sum modules []]
  simp

/-- C2 counterexample: a run whose main module `"b"` and dependency `"a"`
both weigh 5 bytes yields the report order `["b", "a"]` — two equal-size
entries in strictly descending lexical name order, because the `sort.Slice`
comparator consults only `Size` and has no name tie-break. -/
theorem c2_counterexample :
    (ProcessBinary (.ok [("b", 5), ("a", 5)]) (fun _ _ => none)
          { main := { path := "b", version := "" },
            deps := [{ path := "a", version := "v1" }] }).map
        (fun m => (m.name, m.size)) = [("b", 5), ("a", 5)] ∧
    ("a" : String) < "b" := by
  refine ⟨by decide, ?_⟩
  rw [String.lt_iff_toList_lt]
  decide

/-- C2 amended: the assembled report is sorted by non-increasing size and is
a permutation of the per-provenance entry list; equal-size entries appear in
an order the comparator leaves unspecified (there is no name tie-break), and
repeated runs on identical input agree because assembly is a pure
function. -/
theorem c2_report_descending_no_name_tiebreak
    (analysis : Except String (List (String × Nat))) (cache : ModCache)
    (info : BuildInfo) :
    List.Sorted sizeGe (ProcessBinary analysis cache info) ∧
    (ProcessBinary analysis cache info).Perm
      (binaryEntries (analysis.toOption.getD []) cache info) := by
  cases analysis with
  | ok m => exact ⟨sorted_sortModulesBySize _, perm_sortModulesBySize _⟩
  | error e => exact ⟨sorted_sortModulesBySize _, perm_sortModulesBySize _⟩

/-- C3 counterexample: an ELF binary that parses but yields zero symbol
records makes `analyzeBinarySymbolTable` return the `no symbols found`
error — not an empty-but-successful result. -/
theorem c3_counterexample :
    analyzeBinarySymbolTable (.elf [] [] []) (some 1000) =
      .error "no symbols found in ELF binary" := rfl

/-- C3 amended: when a recognized format yields zero symbol records the
analysis returns the `no symbols found` error; `ProcessBinary` treats that
error as a logged warning only, proceeding with the nil size map, so every
entry falls back to provenance-derived (module-cache) information. -/
theorem c3_empty_symbols_error_warn_and_continue (pb : ParsedBinary)
    (fileSize : Option Nat) (h : collectSymbols pb = []) :
    analyzeBinarySymbolTable pb fileSize =
      .error ("no symbols found in " ++ archTypeOf pb ++ " binary") ∧
    ∀ (msg : String) (cache : ModCache) (info : BuildInfo),
      ProcessBinary (.error msg) cache info =
        sortModulesBySize (binaryEntries [] cache info) := by
  constructor
  · unfold analyzeBinarySymbolTable
    rw [h]
    rfl
  · intro msg cache info
    rfl

theorem c3_witness :
    collectSymbols (.elf [] [] []) = [] ∧
    (analyzeBinarySymbolTable (.elf [] [] []) (some 1000) =
        .error ("no symbols found in " ++ archTypeOf (.elf [] [] []) ++ " binary") ∧
      ∀ (msg : String) (cache : ModCache) (info : BuildInfo),
        ProcessBinary (.error msg) cache info =
          sortModulesBySize (binaryEntries [] cache info)) :=
  ⟨rfl, c3_empty_symbols_error_warn_and_continue (.elf [] [] []) (some 1000) rfl⟩

/-- C4 counterexample: provenance whose main module path `"m"` also appears
as a dependency path produces a report with two entries named `"m"` —
`ProcessBinary` emits one entry per provenance record and never merges by
name. -/
theorem c4_counterexample :
    (ProcessBinary (.ok [("m", 5)]) (fun _ _ => none)
          { main := { path := "m", version := "" },
            deps := [{ path := "m", version := "v1" }] }).map
        ModuleEntry.name = ["m", "m"] ∧
    ¬ (["m", "m"] : List String).Nodup := ⟨by decide, by decide⟩

/-- C4 amended: the report carries exactly one entry per provenance record
(no merging takes place), so its names are pairwise distinct exactly when
the provenance module paths fed in are; under that assumption no two report
entries share a name. -/
theorem c4_distinct_names_iff_distinct_provenance
    (analysis : Except String (List (String × Nat))) (cache : ModCache)
    (info : BuildInfo) (h : (provenancePaths info).Nodup) :
    ((ProcessBinary analysis cache info).map ModuleEntry.name).Nodup := by
  cases analysis with
  | ok m =>
    have hperm := List.Perm.map ModuleEntry.name
      (perm_sortModulesBySize (binaryEntries m cache info))
    rw [show ProcessBinary (.ok m) cache info
          = sortModulesBySize (binaryEntries m cache info) from rfl,
        List.Perm.nodup_iff hperm, binaryEntries_names]
    exact h
  | error e =>
    have hperm := List.Perm.map ModuleEntry.name
      (perm_sortModulesBySize (binaryEntries [] cache info))
    rw [show ProcessBinary (.error e) cache info
          = sortModulesBySize (binaryEntries [] cache info) from rfl,
        List.Perm.nodup_iff hperm, binaryEntries_names]
    exact h

theorem c4_witness :
    ((provenancePaths
          { main := { path := "a", version := "" },
            deps := [{ path := "b", version := "v1" }] }).Nodup) ∧
    ((ProcessBinary (.ok []) (fun _ _ => none)
          { main := { path := "a", version := "" },
            deps := [{ path := "b", version := "v1" }] }).map
        ModuleEntry.name).Nodup :=
  ⟨by decide,
   c4_distinct_names_iff_distinct_provenance (.ok []) (fun _ _ => none) _ (by decide)⟩

/-- C5 counterexample: a Mach-O symbol table containing the single symbol
`runtime.newobject` yields one record whose recorded size is `100`, not
`0` — the symbol reader itself substitutes the fixed estimate of
`estimateMachOSymbolSize`. -/
theorem c5_counterexample :
    (collectMachoSyms [{ name := "runtime.newobject" }]).map Symbol.size = [100] ∧
    (100 : Nat) ≠ 0 := ⟨by decide, by decide⟩

/-- C5 amended: every symbol record the Mach-O branch of the reader
produces carries the fixed substitute size `100` returned by
`estimateMachOSymbolSize` — the estimation decision is taken inside the
symbol reader, not deferred to the size reconciler as size `0`. -/
theorem c5_macho_symbols_carry_estimate (syms : List MachoSym) (s : Symbol)
    (h : s ∈ collectMachoSyms syms) : s.size = 100 := by
  rcases List.mem_filterMap.mp h with ⟨sym, -, hf⟩
  by_cases hp : extractPackageFromSymbol sym.name ≠ ""
  · simp only [if_pos hp] at hf
    injection hf with h2
    subst h2
    rfl
  · simp only [if_neg hp] at hf
    exact absurd hf (by simp)

theorem c5_witness :
    (({ name := "runtime.newobject", size := 100, address := 0,
        package := "runtime", sectionName := "" } : Symbol)
        ∈ collectMachoSyms [{ name := "runtime.newobject" }]) ∧
    ({ name := "runtime.newobject", size := 100, address := 0,
       package := "runtime", sectionName := "" } : Symbol).size = 100 :=
  ⟨by decide,
   c5_macho_symbols_carry_estimate [{ name := "runtime.newobject" }] _ (by decide)⟩

end GoWeight
